import Mathlib

/-!
Verification of the Kafka connection component
(`src/kafka/connection/kafka_connection.go`) of the messaging-contrib
repository, as a shallow embedding in Lean 4.

Go strings are modelled as `List Char`.  Filesystem state and the two
network-touching client constructors are modelled as explicit parameters
(a filesystem value for the trust-store path, and success flags for the
producer/consumer constructors), and the side effects the code performs
(trust-store access, warning log entries, network-touching constructor
calls) are returned as an explicit event trace alongside the result.
-/

set_option autoImplicit false

namespace KafkaConnection

/-- Go strings, modelled as lists of characters. -/
abbrev Str := List Char

/-- Embedding of Go `strings.Split(s, string(sep))` for a one-character
separator: splits around every occurrence of `sep`; the empty string
yields `[[]]` (Go returns a one-element slice holding the empty string). -/
def splitChar (sep : Char) : Str → List Str
  | [] => [[]]
  | c :: rest =>
    let r := splitChar sep rest
    if c = sep then [] :: r else (c :: r.headD []) :: r.tail

/-- Digit string to numeric value, most significant digit first
(the accumulation `strconv.Atoi` performs on the digit characters). -/
def digitsToNat (ds : Str) : Nat :=
  ds.foldl (fun n c => 10 * n + (c.toNat - '0'.toNat)) 0

/-- Embedding of Go `strconv.Atoi`: an optional single sign followed by at
least one decimal digit; anything else is an error (`none`).  Machine-int
overflow is not modelled: an overflowing input makes Go's `Atoi` return an
error while here it returns its exact value, and `validateBrokerUrl`
rejects both (the exact value of an overflowing port lies outside
[0, 32767]), so the accept/reject behaviour embedded below is unchanged. -/
def atoi (s : Str) : Option Int :=
  match s with
  | [] => none
  | c :: rest =>
    if c = '-' then
      if rest.isEmpty then none
      else if rest.all Char.isDigit then some (-(digitsToNat rest : Int)) else none
    else if c = '+' then
      if rest.isEmpty then none
      else if rest.all Char.isDigit then some ((digitsToNat rest : Int)) else none
    else
      if (c :: rest).all Char.isDigit then some ((digitsToNat (c :: rest) : Int)) else none

/-- The two error cases of `validateBrokerUrl`: the wrong-shape message
("must be composed of sections like host:port") and the bad-port message
(which names the offending port segment). -/
inductive BrokerErr where
  | badShape
  | badPort (portStr : Str)
deriving DecidableEq, Repr

/-- Embedding of `validateBrokerUrl`: split on `':'`; error unless exactly
two segments; then the second segment must `Atoi`-parse to an integer in
[0, 32767]. -/
def validateBrokerUrl (broker : Str) : Option BrokerErr :=
  match splitChar ':' broker with
  | [_host, port] =>
    match atoi port with
    | some i => if i < 0 ∨ 32767 < i then some (.badPort port) else none
    | none => some (.badPort port)
  | _ => some .badShape

/-- Modelled from the spec: the address shape `^[^:]+:[0-9]{1,5}$` with the
numeric part in [0, 32767].  A string matches that regular expression
exactly when splitting it on `':'` gives exactly two segments (so the
string holds exactly one colon, and neither segment holds one), the first
segment is non-empty, and the second is one to five decimal digits; the
value bound is the claim's extra side condition. -/
def specBrokerOk (s : Str) : Bool :=
  match splitChar ':' s with
  | [host, port] =>
    !host.isEmpty && !port.isEmpty && port.length ≤ 5 &&
      port.all Char.isDigit && digitsToNat port ≤ 32767
  | _ => false

/-- Embedding of the `Settings` struct (fields `brokerUrls`, `user`,
`password`, `trustStore`). -/
structure Settings where
  BrokerUrls : Str
  User : Str
  Password : Str
  TrustStore : Str
deriving DecidableEq, Repr

/-- Embedding of `getConnectionKey`: start from the empty string, append
the broker list, then the trust store when non-empty, then the user when
non-empty. -/
def getConnectionKey (settings : Settings) : Str :=
  let connKey : Str := []
  let connKey := connKey ++ settings.BrokerUrls
  let connKey := if settings.TrustStore ≠ [] then connKey ++ settings.TrustStore else connKey
  let connKey := if settings.User ≠ [] then connKey ++ settings.User else connKey
  connKey

/-- Contents of one candidate certificate file in a trust-store directory:
either `ioutil.ReadFile` fails on it, or it yields bytes in which
`x509.CertPool.AppendCertsFromPEM` finds the given (possibly empty) list
of certificates.  Certificates are identified by their subject. -/
inductive FileContent where
  | unreadable
  | pem (certs : List Str)
deriving DecidableEq, Repr

/-- One directory entry, as `ioutil.ReadDir` reports it: a file name plus
what reading that file produces. -/
structure DirEntry where
  name : Str
  content : FileContent
deriving DecidableEq, Repr

/-- What the filesystem holds at the trust-store path: nothing
(`os.Stat` fails), a regular file, or a directory whose `ioutil.ReadDir`
either fails (`dir none`) or lists the given entries. -/
inductive TrustStoreFs where
  | missing
  | regularFile
  | dir (entries : Option (List DirEntry))
deriving DecidableEq, Repr

/-- The four error cases of `getCerts`, each carrying the trust-store
path the corresponding Go message interpolates. -/
inductive CertsErr where
  | notFound (path : Str)
  | notADirectory (path : Str)
  | emptyOrUnreadable (path : Str)
  | noValidCerts (path : Str)
deriving DecidableEq, Repr

/-- Embedding of `x509.CertPool.AddCert`: appends the certificate unless
an equal one is already in the pool. -/
def addCert (pool : List Str) (c : Str) : List Str :=
  if c ∈ pool then pool else pool ++ [c]

/-- Embedding of `x509.CertPool.AppendCertsFromPEM`: adds every
certificate found in the bytes to the pool, in order (a corrupt or empty
file yields no certificates and leaves the pool unchanged). -/
def appendCertsFromPEM (pool : List Str) (certs : List Str) : List Str :=
  certs.foldl addCert pool

/-- Accumulator of the per-entry loop of `getCerts`: the certificate pool
built so far, the warning log entries emitted so far (one file name per
failed read), and the file reads attempted so far. -/
structure ScanAcc where
  pool : List Str
  warnings : List Str
  reads : List Str
deriving DecidableEq, Repr

/-- One iteration of the `getCerts` loop: attempt to read the entry; on a
read failure log a warning naming the file and continue; otherwise append
whatever certificates the bytes hold. -/
def processEntry (acc : ScanAcc) (e : DirEntry) : ScanAcc :=
  match e.content with
  | .unreadable => ⟨acc.pool, acc.warnings ++ [e.name], acc.reads ++ [e.name]⟩
  | .pem certs => ⟨appendCertsFromPEM acc.pool certs, acc.warnings, acc.reads ++ [e.name]⟩

/-- The whole `getCerts` loop over the directory entries, starting from
the fresh pool `x509.NewCertPool()` gives. -/
def processEntries (entries : List DirEntry) : ScanAcc :=
  entries.foldl processEntry ⟨[], [], []⟩

deriving instance DecidableEq for Except

/-- Result of `getCerts`: the returned value (pool of certificate
subjects, or error), plus its side effects — warning log entries and
attempted file reads. -/
structure CertsResult where
  result : Except CertsErr (List Str)
  warnings : List Str
  reads : List Str
deriving DecidableEq, Repr

/-- Embedding of `getCerts`: stat the path (fails: not-found error);
a regular file is rejected before any read; a failing or empty `ReadDir`
is the empty-or-unreadable error; otherwise every entry is processed by
`processEntry`, and a pool left with fewer than one subject is the
no-valid-certificates error.  (A path that is neither a regular file nor
a directory falls through the Go `switch` and then fails inside `ReadDir`;
that node kind is not modelled.) -/
def getCerts (trustStore : Str) (fs : TrustStoreFs) : CertsResult :=
  match fs with
  | .missing => ⟨.error (.notFound trustStore), [], []⟩
  | .regularFile => ⟨.error (.notADirectory trustStore), [], []⟩
  | .dir none => ⟨.error (.emptyOrUnreadable trustStore), [], []⟩
  | .dir (some entries) =>
    if entries.length = 0 then ⟨.error (.emptyOrUnreadable trustStore), [], []⟩
    else
      let acc := processEntries entries
      if acc.pool.length < 1 then ⟨.error (.noValidCerts trustStore), acc.warnings, acc.reads⟩
      else ⟨.ok acc.pool, acc.warnings, acc.reads⟩

/-- The certificate a directory entry contributes when it is a valid
single-certificate PEM file, and `none` otherwise. -/
def validCert (e : DirEntry) : Option Str :=
  match e.content with
  | .pem [c] => some c
  | _ => none

/-- Whether reading this entry fails (the only case the Go loop warns
about). -/
def isUnreadableFile (e : DirEntry) : Bool :=
  match e.content with
  | .unreadable => true
  | _ => false

/-- An entry is of the shape the N-valid-plus-M-corrupt claim quantifies
over: a valid single-certificate PEM file, an unreadable file, or a
readable file in which no certificate parses. -/
def entryShapeOk (e : DirEntry) : Bool :=
  match e.content with
  | .unreadable => true
  | .pem [] => true
  | .pem [_] => true
  | .pem (_ :: _ :: _) => false

/-- The `tls.Config` fields this code sets: the trusted root pool and the
`InsecureSkipVerify` flag. -/
structure TLSSettings where
  RootCAs : List Str
  InsecureSkipVerify : Bool
deriving DecidableEq, Repr

/-- The `Net.TLS` section of the sarama configuration. -/
structure TLSConf where
  Enable : Bool
  Config : Option TLSSettings
deriving DecidableEq, Repr

/-- The `Net.SASL` section of the sarama configuration. -/
structure SASLConf where
  Enable : Bool
  User : Str
  Password : Str
deriving DecidableEq, Repr

/-- The `Net` section of the sarama configuration. -/
structure NetConf where
  TLS : TLSConf
  SASL : SASLConf
deriving DecidableEq, Repr

/-- The `Producer.Retry` section of the sarama configuration. -/
structure RetryConf where
  Max : Nat
deriving DecidableEq, Repr

/-- The `Producer.Return` section of the sarama configuration. -/
structure ReturnConf where
  Errors : Bool
  Successes : Bool
deriving DecidableEq, Repr

/-- The `Producer` section of the sarama configuration.  `RequiredAcks`
is sarama's integer code: `WaitForLocal` is 1, `WaitForAll` is -1. -/
structure ProducerConf where
  RequiredAcks : Int
  Retry : RetryConf
  Return : ReturnConf
deriving DecidableEq, Repr

/-- The sarama client configuration, restricted to the fields this code
reads or writes. -/
structure SaramaConfig where
  Producer : ProducerConf
  Net : NetConf
deriving DecidableEq, Repr

/-- The defaults `sarama.NewConfig()` gives the modelled fields: TLS and
SASL off, acknowledgement from the local replica only, three retries,
errors returned, successes not. -/
def saramaNewConfig : SaramaConfig :=
  { Producer := { RequiredAcks := 1, Retry := ⟨3⟩, Return := ⟨true, false⟩ }
    Net := { TLS := ⟨false, none⟩, SASL := ⟨false, [], []⟩ } }

/-- Embedding of the `KafkaConnect` struct (the producer and consumer
objects themselves are external; the configuration and broker list they
are bound to are kept). -/
structure KafkaConnect where
  kafkaConfig : SaramaConfig
  brokers : List Str
deriving DecidableEq, Repr

/-- The error cases of `getKafkaConnection`, in the order the code can
produce them. -/
inductive ConnErr where
  | emptyBrokerList (raw : Str)
  | invalidBroker (broker : Str) (e : BrokerErr)
  | trustStore (e : CertsErr)
  | missingPassword (user : Str)
  | producerFailed
  | consumerFailed
deriving DecidableEq, Repr

/-- Observable side effects of `getKafkaConnection`: touching the
trust-store filesystem path, emitting a warning log entry, and the two
network-touching sarama constructor calls. -/
inductive Event where
  | trustStoreAccess
  | warn (file : Str)
  | netProducer
  | netConsumer
deriving DecidableEq, Repr

/-- The per-broker validation loop: returns the first broker that fails
`validateBrokerUrl` together with its error, or `none` when all pass. -/
def validateBrokers : List Str → Option (Str × BrokerErr)
  | [] => none
  | b :: rest =>
    match validateBrokerUrl b with
    | some e => some (b, e)
    | none => validateBrokers rest

/-- The trust-store step of `getKafkaConnection`: when a trust-store path
is set, load it with `getCerts` (recording the filesystem access and any
warnings); on success enable TLS and install the pool as the trusted
roots with `InsecureSkipVerify` set; on failure propagate the
`getCerts` error. -/
def trustStep (s : Settings) (fs : TrustStoreFs) (cfg : SaramaConfig) :
    Except ConnErr SaramaConfig × List Event :=
  if s.TrustStore ≠ [] then
    let cr := getCerts s.TrustStore fs
    let ev := Event.trustStoreAccess :: cr.warnings.map Event.warn
    match cr.result with
    | .ok pool =>
      (.ok { cfg with Net := { cfg.Net with
          TLS := { Enable := true, Config := some ⟨pool, true⟩ } } }, ev)
    | .error e => (.error (.trustStore e), ev)
  else (.ok cfg, [])

/-- The SASL step of `getKafkaConnection`: when a user is set, an empty
password is the missing-credential error; otherwise SASL is enabled with
the given user and password. -/
def saslStep (s : Settings) (cfg : SaramaConfig) : Except ConnErr SaramaConfig :=
  if s.User ≠ [] then
    if s.Password.length = 0 then .error (.missingPassword s.User)
    else .ok { cfg with Net := { cfg.Net with
        SASL := { Enable := true, User := s.User, Password := s.Password } } }
  else .ok cfg

/-- The two sarama constructor calls at the end of `getKafkaConnection`:
`NewSyncProducer` is attempted first (a network access); on its failure
the producer error is returned without the consumer being attempted;
otherwise `NewConsumer` is attempted and on success the handle is built. -/
def buildClients (brokers : List Str) (cfg : SaramaConfig) (tr : List Event)
    (prodOk consOk : Bool) : Except ConnErr KafkaConnect × List Event :=
  if prodOk then
    if consOk then (.ok ⟨cfg, brokers⟩, tr ++ [.netProducer, .netConsumer])
    else (.error .consumerFailed, tr ++ [.netProducer, .netConsumer])
  else (.error .producerFailed, tr ++ [.netProducer])

/-- The producer tuning `getKafkaConnection` always applies on top of
`sarama.NewConfig()`: return errors, wait for all in-sync replicas
(`WaitForAll` is -1), at most five retries, return successes. -/
def producerTunedConfig : SaramaConfig :=
  { saramaNewConfig with
      Producer := { RequiredAcks := -1, Retry := ⟨5⟩, Return := ⟨true, true⟩ } }

/-- The stages of `getKafkaConnection` after broker validation passes:
the trust-store step, then the SASL step, then the two constructor
calls. -/
def buildFromConfig (s : Settings) (fs : TrustStoreFs) (prodOk consOk : Bool)
    (brokers : List Str) : Except ConnErr KafkaConnect × List Event :=
  match trustStep s fs producerTunedConfig with
  | (.error e, tr) => (.error e, tr)
  | (.ok cfg1, tr) =>
    match saslStep s cfg1 with
    | .error e => (.error e, tr)
    | .ok cfg2 => buildClients brokers cfg2 tr prodOk consOk

/-- Embedding of `getKafkaConnection`.  `fs` is what the filesystem holds
at the trust-store path; `prodOk` and `consOk` are whether the two sarama
constructors succeed.  Returns the result together with the trace of side
effects performed, in order: set the producer configuration, split the
broker list on commas, reject a split of fewer than one element, validate
every broker (first failure wins), then the trust-store step, then the
SASL step, then the constructor calls. -/
def getKafkaConnection (s : Settings) (fs : TrustStoreFs) (prodOk consOk : Bool) :
    Except ConnErr KafkaConnect × List Event :=
  let brokerUrls := splitChar ',' s.BrokerUrls
  if brokerUrls.length < 1 then (.error (.emptyBrokerList s.BrokerUrls), [])
  else
    match validateBrokers brokerUrls with
    | some be => (.error (.invalidBroker be.1 be.2), [])
    | none => buildFromConfig s fs prodOk consOk brokerUrls

/-- The two close calls `Stop` can make, in trace order. -/
inductive CloseEvent where
  | producer
  | consumer
deriving DecidableEq, Repr

/-- Embedding of `KafkaConnect.Stop`, over the outcomes of the two
underlying `Close` calls (`none` is a nil error): close the producer; on
its failure return that error without touching the consumer; otherwise
close the consumer and return its outcome.  The second component is the
trace of close calls made. -/
def Stop (prodCloseErr consCloseErr : Option Str) : Option Str × List CloseEvent :=
  match prodCloseErr with
  | some e => (some e, [.producer])
  | none => (consCloseErr, [.producer, .consumer])

example : splitChar ',' [] = [[]] := rfl
example : splitChar ':' ['a', ':', '9'] = [['a'], ['9']] := rfl
example : validateBrokerUrl [':', '8', '0'] = none := rfl
example : validateBrokerUrl ['h'] = some .badShape := rfl
example : atoi ['+', '8', '0'] = some 80 := rfl
example : atoi ['-', '1'] = some (-1) := rfl
example : atoi [] = none := rfl

/-! ## Helper lemmas -/

/-- Splitting a string never yields the empty list (Go's `strings.Split`
returns at least one element, the empty string splitting to `[""]`). -/
theorem splitChar_ne_nil (sep : Char) (s : Str) : splitChar sep s ≠ [] := by
  cases s with
  | nil => simp [splitChar]
  | cons c rest =>
    simp only [splitChar]
    split <;> simp

/-- Hence every split has at least one element. -/
theorem one_le_splitChar_length (sep : Char) (s : Str) :
    1 ≤ (splitChar sep s).length := by
  have h := splitChar_ne_nil sep s
  cases hs : splitChar sep s with
  | nil => exact absurd hs h
  | cons a t => simp

/-- `atoi` on a non-empty all-digit string returns exactly its decimal
value. -/
theorem atoi_all_digits (s : Str) (hne : s ≠ [])
    (hd : s.all Char.isDigit = true) :
    atoi s = some ((digitsToNat s : Nat) : Int) := by
  match s with
  | [] => exact absurd rfl hne
  | c :: rest =>
    have hc : Char.isDigit c = true := by
      simp only [List.all_cons, Bool.and_eq_true] at hd
      exact hd.1
    have hminus : ¬(c = '-') := by
      intro h
      rw [h] at hc
      exact absurd hc (by decide)
    have hplus : ¬(c = '+') := by
      intro h
      rw [h] at hc
      exact absurd hc (by decide)
    simp [atoi, hminus, hplus, hd]

/-! ## Claims -/

/-- Claim C1, amended.  First part (the direction of the claim that
holds): every address of the shape `^[^:]+:[0-9]{1,5}$` whose numeric
part is at most 32767 passes `validateBrokerUrl`.  Second part (the exact
acceptance condition, which is strictly wider than the claim's regular
expression): an address is accepted exactly when it splits on `':'` into
exactly two segments whose second `Atoi`-parses to an integer in
[0, 32767] — so an empty host (`":80"`), a signed port (`"h:+80"`), and a
port of more than five digits with leading zeros (`"h:0032767"`) are also
accepted. -/
theorem validateBrokerUrl_regex_sound_and_exact (s : Str) :
    (specBrokerOk s = true → validateBrokerUrl s = none) ∧
    (validateBrokerUrl s = none ↔
      ∃ host port i, splitChar ':' s = [host, port] ∧ atoi port = some i ∧
        0 ≤ i ∧ i ≤ 32767) := by
  rcases hsp : splitChar ':' s with _ | ⟨host, _ | ⟨port, _ | ⟨x, t⟩⟩⟩
  · exact absurd hsp (splitChar_ne_nil ':' s)
  · constructor
    · intro h
      unfold specBrokerOk at h
      rw [hsp] at h
      simp at h
    · constructor
      · intro h
        simp [validateBrokerUrl, hsp] at h
      · rintro ⟨h1, p1, i1, heq, -⟩
        exact absurd heq (by simp)
  · constructor
    · intro h
      unfold specBrokerOk at h
      rw [hsp] at h
      simp only [Bool.and_eq_true] at h
      obtain ⟨⟨⟨⟨hhost, hpne⟩, hlen⟩, hdig⟩, hval⟩ := h
      have hpne' : port ≠ [] := by
        simpa [List.isEmpty_iff] using hpne
      have hval' : digitsToNat port ≤ 32767 := by
        simpa using hval
      have hcond : ¬(((digitsToNat port : Nat) : Int) < 0 ∨
          (32767 : Int) < ((digitsToNat port : Nat) : Int)) := by
        omega
      simp [validateBrokerUrl, hsp, atoi_all_digits port hpne' hdig, hcond, hval']
    · rcases hat : atoi port with _ | i
      · constructor
        · intro h
          simp [validateBrokerUrl, hsp, hat] at h
        · rintro ⟨h1, p1, i1, heq, hat1, -⟩
          obtain ⟨rfl, rfl⟩ : h1 = host ∧ p1 = port := by
            simpa using heq.symm
          rw [hat] at hat1
          simp at hat1
      · by_cases hcond : i < 0 ∨ 32767 < i
        · constructor
          · intro h
            simp [validateBrokerUrl, hsp, hat, hcond] at h
          · rintro ⟨h1, p1, i1, heq, hat1, hge, hle⟩
            obtain ⟨rfl, rfl⟩ : h1 = host ∧ p1 = port := by
              simpa using heq.symm
            rw [hat] at hat1
            obtain rfl : i = i1 := by
              simpa using hat1
            omega
        · constructor
          · intro _
            exact ⟨host, port, i, rfl, hat, by omega, by omega⟩
          · intro _
            simp [validateBrokerUrl, hsp, hat, hcond]
  · constructor
    · intro h
      unfold specBrokerOk at h
      rw [hsp] at h
      simp at h
    · constructor
      · intro h
        simp [validateBrokerUrl, hsp] at h
      · rintro ⟨h1, p1, i1, heq, -⟩
        exact absurd heq (by simp)

/-- Claim C1, witness for the amended theorem: the concrete regex-shaped
address `"h:80"` is accepted. -/
theorem validateBrokerUrl_regex_sound_witness :
    validateBrokerUrl ['h', ':', '8', '0'] = none :=
  (validateBrokerUrl_regex_sound_and_exact ['h', ':', '8', '0']).1 (by decide)

/-- Claim C1, counterexample to the claim as stated: the address `":80"`
does not match `^[^:]+:[0-9]{1,5}$` (its host part is empty), yet
`validateBrokerUrl` accepts it. -/
theorem validateBrokerUrl_accepts_empty_host :
    specBrokerOk [':', '8', '0'] = false ∧
    validateBrokerUrl [':', '8', '0'] = none :=
  ⟨rfl, rfl⟩

/-- The reads performed by the `getCerts` loop: every directory entry is
read, in order, whatever its contents. -/
theorem foldl_processEntry_reads (entries : List DirEntry) (acc : ScanAcc) :
    (entries.foldl processEntry acc).reads = acc.reads ++ entries.map DirEntry.name := by
  induction entries generalizing acc with
  | nil => simp
  | cons e rest ih =>
    rcases he : e.content with _ | certs <;>
      simp [processEntry, he, ih, List.append_assoc]

/-- The pool and warnings the `getCerts` loop accumulates over entries
that are each a valid single-certificate file, an unreadable file, or a
readable parse failure: the pool gains exactly the valid files'
certificates (provided none repeats an earlier one, since `AddCert`
skips duplicates), and a warning is logged exactly for each unreadable
file — a readable parse failure is skipped silently. -/
theorem foldl_processEntry_spec (entries : List DirEntry) (acc : ScanAcc)
    (hshape : ∀ e ∈ entries, entryShapeOk e = true)
    (hnodup : (acc.pool ++ entries.filterMap validCert).Nodup) :
    (entries.foldl processEntry acc).pool = acc.pool ++ entries.filterMap validCert ∧
    (entries.foldl processEntry acc).warnings =
      acc.warnings ++ (entries.filter isUnreadableFile).map DirEntry.name := by
  induction entries generalizing acc with
  | nil => simp
  | cons e rest ih =>
    have hsh : entryShapeOk e = true := hshape e (by simp)
    have hshrest : ∀ x ∈ rest, entryShapeOk x = true :=
      fun x hx => hshape x (by simp [hx])
    rcases he : e.content with _ | ⟨_ | ⟨c, _ | ⟨d, cs⟩⟩⟩
    · -- unreadable: warning, pool unchanged
      have hv : validCert e = none := by simp [validCert, he]
      have hu : isUnreadableFile e = true := by simp [isUnreadableFile, he]
      have step : processEntry acc e =
          ⟨acc.pool, acc.warnings ++ [e.name], acc.reads ++ [e.name]⟩ := by
        simp [processEntry, he]
      rw [List.foldl_cons, step]
      have hnodup' : ((⟨acc.pool, acc.warnings ++ [e.name], acc.reads ++ [e.name]⟩ :
          ScanAcc).pool ++ rest.filterMap validCert).Nodup := by
        simpa [hv] using hnodup
      obtain ⟨hp, hw⟩ := ih _ hshrest hnodup'
      refine ⟨by simpa [hv] using hp, ?_⟩
      rw [hw]
      simp [hu, List.append_assoc]
    · -- readable but no certificate parses: silently skipped
      have hv : validCert e = none := by simp [validCert, he]
      have hu : isUnreadableFile e = false := by simp [isUnreadableFile, he]
      have step : processEntry acc e =
          ⟨acc.pool, acc.warnings, acc.reads ++ [e.name]⟩ := by
        simp [processEntry, he, appendCertsFromPEM]
      rw [List.foldl_cons, step]
      have hnodup' : ((⟨acc.pool, acc.warnings, acc.reads ++ [e.name]⟩ :
          ScanAcc).pool ++ rest.filterMap validCert).Nodup := by
        simpa [hv] using hnodup
      obtain ⟨hp, hw⟩ := ih _ hshrest hnodup'
      refine ⟨by simpa [hv] using hp, ?_⟩
      rw [hw]
      simp [hu]
    · -- a valid single-certificate file
      have hv : validCert e = some c := by simp [validCert, he]
      have hu : isUnreadableFile e = false := by simp [isUnreadableFile, he]
      have hmem : c ∉ acc.pool := by
        intro hmem
        have hdisj := (List.nodup_append.mp (by simpa [hv] using hnodup)).2.2
        exact hdisj hmem (by simp)
      have step : processEntry acc e =
          ⟨acc.pool ++ [c], acc.warnings, acc.reads ++ [e.name]⟩ := by
        simp [processEntry, he, appendCertsFromPEM, addCert, hmem]
      rw [List.foldl_cons, step]
      have hnodup' : ((⟨acc.pool ++ [c], acc.warnings, acc.reads ++ [e.name]⟩ :
          ScanAcc).pool ++ rest.filterMap validCert).Nodup := by
        simpa [hv, List.append_assoc] using hnodup
      obtain ⟨hp, hw⟩ := ih _ hshrest hnodup'
      constructor
      · rw [hp]
        simp [hv, List.append_assoc]
      · rw [hw]
        simp [hu]
    · -- more than one certificate in one file: excluded by the shape bound
      simp [entryShapeOk, he] at hsh

/-- Claim C3, amended.  For a trust-store directory whose entries are
each a valid single-certificate PEM file, an unreadable file, or a
readable file with no parsable certificate, with at least one valid file
and no repeated certificate: loading succeeds, the pool holds exactly the
valid files' certificates (N subjects for N valid files), and a warning
is emitted only per unreadable file — a file that reads but fails to
parse is skipped silently, with no warning (the code ignores the result
of `AppendCertsFromPEM`). -/
theorem getCerts_valid_and_corrupt (ts : Str) (entries : List DirEntry)
    (hshape : ∀ e ∈ entries, entryShapeOk e = true)
    (hnodup : (entries.filterMap validCert).Nodup)
    (hN : entries.filterMap validCert ≠ []) :
    (getCerts ts (.dir (some entries))).result = .ok (entries.filterMap validCert) ∧
    (getCerts ts (.dir (some entries))).warnings =
      (entries.filter isUnreadableFile).map DirEntry.name := by
  obtain ⟨hp, hw⟩ := foldl_processEntry_spec entries ⟨[], [], []⟩ hshape (by simpa using hnodup)
  have hpool : (processEntries entries).pool = entries.filterMap validCert := by
    simpa [processEntries] using hp
  have hwarn : (processEntries entries).warnings =
      (entries.filter isUnreadableFile).map DirEntry.name := by
    simpa [processEntries] using hw
  have hne : ¬(entries.length = 0) := by
    intro h
    rw [List.length_eq_zero] at h
    subst h
    simp at hN
  have hlt : ¬((processEntries entries).pool.length < 1) := by
    rw [hpool]
    cases h : entries.filterMap validCert with
    | nil => exact absurd h hN
    | cons a t => simp [h]
  have hgc : getCerts ts (.dir (some entries)) =
      ⟨.ok (processEntries entries).pool, (processEntries entries).warnings,
        (processEntries entries).reads⟩ := by
    simp only [getCerts]
    rw [if_neg hne, if_neg hlt]
  rw [hgc]
  exact ⟨by rw [hpool], by rw [hwarn]⟩

/-- Claim C3, witness for the amended theorem: a directory with one valid
certificate file `"a"`, one unreadable file `"b"`, and one readable
parse-failure file `"c"` loads successfully with a one-subject pool and a
single warning, for `"b"` only. -/
theorem getCerts_valid_and_corrupt_witness :
    (getCerts ['t'] (.dir (some [⟨['a'], .pem [['x']]⟩, ⟨['b'], .unreadable⟩,
      ⟨['c'], .pem []⟩]))).result = .ok [['x']] ∧
    (getCerts ['t'] (.dir (some [⟨['a'], .pem [['x']]⟩, ⟨['b'], .unreadable⟩,
      ⟨['c'], .pem []⟩]))).warnings = [['b']] :=
  getCerts_valid_and_corrupt ['t']
    [⟨['a'], .pem [['x']]⟩, ⟨['b'], .unreadable⟩, ⟨['c'], .pem []⟩]
    (by decide) (by decide) (by decide)

/-- Claim C3, counterexample to the claim as stated: a directory with
N = 1 valid PEM file and M = 1 corrupt (readable but unparsable) file
loads successfully with one subject, yet emits zero warnings, not M = 1 —
the parse failure is skipped without a warning. -/
theorem getCerts_silent_parse_failure :
    (getCerts ['t'] (.dir (some [⟨['a'], .pem [['x']]⟩, ⟨['b'], .pem []⟩]))).result =
      .ok [['x']] ∧
    (getCerts ['t'] (.dir (some [⟨['a'], .pem [['x']]⟩, ⟨['b'], .pem []⟩]))).warnings =
      [] :=
  ⟨rfl, rfl⟩

/-- Claim C4: the `getCerts` error taxonomy.  A missing path is the
not-found error; a regular file is the not-a-directory error with no file
contents read; an unreadable or empty directory is the
empty-or-unreadable error; otherwise every entry is read, and the result
is the no-valid-certificates error exactly when the accumulated pool has
zero subjects, and the populated pool otherwise. -/
theorem getCerts_error_taxonomy (ts : Str) :
    getCerts ts .missing = ⟨.error (.notFound ts), [], []⟩ ∧
    getCerts ts .regularFile = ⟨.error (.notADirectory ts), [], []⟩ ∧
    getCerts ts (.dir none) = ⟨.error (.emptyOrUnreadable ts), [], []⟩ ∧
    getCerts ts (.dir (some [])) = ⟨.error (.emptyOrUnreadable ts), [], []⟩ ∧
    (∀ entries : List DirEntry, entries ≠ [] →
      (getCerts ts (.dir (some entries))).reads = entries.map DirEntry.name ∧
      ((processEntries entries).pool = [] →
        (getCerts ts (.dir (some entries))).result = .error (.noValidCerts ts)) ∧
      ((processEntries entries).pool ≠ [] →
        (getCerts ts (.dir (some entries))).result = .ok (processEntries entries).pool)) := by
  refine ⟨rfl, rfl, rfl, rfl, ?_⟩
  intro entries hne
  have hlen : ¬(entries.length = 0) := by
    intro h
    exact hne (List.length_eq_zero.mp h)
  have hreads : (processEntries entries).reads = entries.map DirEntry.name := by
    simpa [processEntries] using foldl_processEntry_reads entries ⟨[], [], []⟩
  refine ⟨?_, ?_, ?_⟩
  · by_cases hp : (processEntries entries).pool.length < 1 <;>
      simp [getCerts, hlen, hp, hreads]
  · intro hpool
    have hp : (processEntries entries).pool.length < 1 := by
      rw [hpool]
      simp
    simp [getCerts, hlen, hp]
  · intro hpool
    have hp : ¬((processEntries entries).pool.length < 1) := by
      cases h : (processEntries entries).pool with
      | nil => exact absurd h hpool
      | cons a t => simp [h]
    simp [getCerts, hlen, hp]

/-- Claim C4, witness: concrete runs — a missing path gives the not-found
error, and a one-entry directory whose only file yields no certificate
gives the no-valid-certificates error after reading that entry. -/
theorem getCerts_error_taxonomy_witness :
    getCerts ['t'] .missing = ⟨.error (.notFound ['t']), [], []⟩ ∧
    (getCerts ['t'] (.dir (some [⟨['a'], .pem []⟩]))).result =
      .error (.noValidCerts ['t']) :=
  ⟨(getCerts_error_taxonomy ['t']).1,
    ((getCerts_error_taxonomy ['t']).2.2.2.2 [⟨['a'], .pem []⟩] (by decide)).2.1 rfl⟩

/-- Claim C7: `getConnectionKey` is a pure function of the settings
(identical settings give identical keys), and it equals the separator-free
concatenation of the broker-list field, then the trust-store path when
non-empty, then the username when non-empty, in that fixed order. -/
theorem getConnectionKey_concat :
    (∀ s₁ s₂ : Settings, s₁ = s₂ → getConnectionKey s₁ = getConnectionKey s₂) ∧
    (∀ s : Settings, getConnectionKey s =
      s.BrokerUrls ++ ((if s.TrustStore ≠ [] then s.TrustStore else []) ++
        (if s.User ≠ [] then s.User else []))) := by
  constructor
  · intro s₁ s₂ h
    rw [h]
  · intro s
    unfold getConnectionKey
    by_cases ht : s.TrustStore ≠ [] <;> by_cases hu : s.User ≠ [] <;>
      simp [ht, hu, List.append_assoc]

/-- Claim C7, witness: at concrete settings (broker list `"b:1"`, trust
store `"t"`, user `"u"`), repeated derivation gives the same key. -/
theorem getConnectionKey_concat_witness :
    getConnectionKey ⟨['b', ':', '1'], ['u'], ['p'], ['t']⟩ =
      getConnectionKey ⟨['b', ':', '1'], ['u'], ['p'], ['t']⟩ :=
  getConnectionKey_concat.1 _ _ rfl

/-- Claim C8: the key derivation is not injective — broker list `"AB"`
with trust store `"C"` and broker list `"A"` with trust store `"BC"` are
distinct settings with the same key `"ABC"`. -/
theorem getConnectionKey_not_injective :
    (Settings.mk ['A', 'B'] [] [] ['C'] ≠ Settings.mk ['A'] [] [] ['B', 'C']) ∧
    getConnectionKey ⟨['A', 'B'], [], [], ['C']⟩ =
      getConnectionKey ⟨['A'], [], [], ['B', 'C']⟩ :=
  ⟨by decide, rfl⟩

/-- Claim C9: `Stop` closes the producer first; when that close fails its
error is returned and the consumer close is never attempted; when it
succeeds the consumer is closed and that close's outcome (error or nil)
is returned. -/
theorem Stop_order (p c : Option Str) :
    (∀ e, p = some e → Stop p c = (some e, [CloseEvent.producer])) ∧
    (p = none → Stop p c = (c, [CloseEvent.producer, CloseEvent.consumer])) := by
  constructor
  · intro e he
    rw [he]
    rfl
  · intro he
    rw [he]
    rfl

/-- Claim C9, witness: a failing producer close (error `"x"`) is returned
with no consumer close attempted. -/
theorem Stop_order_witness :
    Stop (some ['x']) none = (some ['x'], [CloseEvent.producer]) :=
  (Stop_order (some ['x']) none).1 ['x'] rfl

/-- When every broker validates, `getKafkaConnection` reaches the
post-validation stages. -/
theorem getKafkaConnection_validated (s : Settings) (fs : TrustStoreFs)
    (pOk cOk : Bool) (hv : validateBrokers (splitChar ',' s.BrokerUrls) = none) :
    getKafkaConnection s fs pOk cOk =
      buildFromConfig s fs pOk cOk (splitChar ',' s.BrokerUrls) := by
  have hlen : ¬((splitChar ',' s.BrokerUrls).length < 1) := by
    have := one_le_splitChar_length ',' s.BrokerUrls
    omega
  simp only [getKafkaConnection]
  rw [if_neg hlen, hv]

/-- With no trust-store path, the trust-store step is skipped: the
configuration is unchanged and no filesystem access happens. -/
theorem trustStep_skipped (s : Settings) (fs : TrustStoreFs) (cfg : SaramaConfig)
    (h : s.TrustStore = []) : trustStep s fs cfg = (.ok cfg, []) := by
  simp [trustStep, h]

/-- When the trust store is set and loading fails, the trust-store step
fails with that error after the filesystem access. -/
theorem trustStep_err (s : Settings) (fs : TrustStoreFs) (cfg : SaramaConfig)
    (e : CertsErr) (h : s.TrustStore ≠ [])
    (he : (getCerts s.TrustStore fs).result = .error e) :
    trustStep s fs cfg = (.error (.trustStore e),
      .trustStoreAccess :: (getCerts s.TrustStore fs).warnings.map Event.warn) := by
  simp only [trustStep]
  rw [if_pos h, he]

/-- When the trust store is set and loading succeeds, the trust-store
step enables TLS and installs the pool with `InsecureSkipVerify`. -/
theorem trustStep_loaded (s : Settings) (fs : TrustStoreFs) (cfg : SaramaConfig)
    (pool : List Str) (h : s.TrustStore ≠ [])
    (hok : (getCerts s.TrustStore fs).result = .ok pool) :
    trustStep s fs cfg = (.ok { cfg with Net := { cfg.Net with
        TLS := { Enable := true, Config := some ⟨pool, true⟩ } } },
      .trustStoreAccess :: (getCerts s.TrustStore fs).warnings.map Event.warn) := by
  simp only [trustStep]
  rw [if_pos h, hok]

/-- When the trust-store step fails, the build fails with that error and
exactly the trust-store step's trace. -/
theorem buildFromConfig_trust_err (s : Settings) (fs : TrustStoreFs)
    (pOk cOk : Bool) (brokers : List Str) (e : ConnErr) (tr : List Event)
    (h : trustStep s fs producerTunedConfig = (.error e, tr)) :
    buildFromConfig s fs pOk cOk brokers = (.error e, tr) := by
  unfold buildFromConfig
  rw [h]

/-- When the trust-store step succeeds, the build continues with the SASL
step on the resulting configuration. -/
theorem buildFromConfig_trust_ok (s : Settings) (fs : TrustStoreFs)
    (pOk cOk : Bool) (brokers : List Str) (cfg1 : SaramaConfig) (tr : List Event)
    (h : trustStep s fs producerTunedConfig = (.ok cfg1, tr)) :
    buildFromConfig s fs pOk cOk brokers =
      match saslStep s cfg1 with
      | .error e => (.error e, tr)
      | .ok cfg2 => buildClients brokers cfg2 tr pOk cOk := by
  unfold buildFromConfig
  rw [h]

/-- A user with an empty password makes the SASL step fail with the
missing-credential error. -/
theorem saslStep_missing (s : Settings) (cfg : SaramaConfig)
    (hu : s.User ≠ []) (hp : s.Password = []) :
    saslStep s cfg = .error (.missingPassword s.User) := by
  simp [saslStep, hu, hp]

/-- A successful SASL step leaves the TLS section untouched. -/
theorem saslStep_preserves_TLS (s : Settings) (cfg cfg2 : SaramaConfig)
    (h : saslStep s cfg = .ok cfg2) : cfg2.Net.TLS = cfg.Net.TLS := by
  unfold saslStep at h
  by_cases hu : s.User ≠ []
  · rw [if_pos hu] at h
    by_cases hp : s.Password.length = 0
    · rw [if_pos hp] at h
      exact absurd h (by simp)
    · rw [if_neg hp] at h
      injection h with h2
      rw [← h2]
  · rw [if_neg hu] at h
    injection h with h2
    rw [← h2]

/-- A successful client construction yields a handle bound to exactly the
assembled configuration and validated broker list. -/
theorem buildClients_ok_config (br : List Str) (cfg : SaramaConfig)
    (tr : List Event) (p c : Bool) (conn : KafkaConnect)
    (h : (buildClients br cfg tr p c).1 = .ok conn) :
    conn.kafkaConfig = cfg ∧ conn.brokers = br := by
  cases p <;> cases c <;> simp [buildClients] at h
  rw [← h]
  exact ⟨rfl, rfl⟩

/-- Claim C2, amended.  For settings with a non-empty username, an empty
password, and a broker list that validates: with no trust-store path set,
construction fails with the missing-credential error with no trust-store
or network access; but with a trust-store path set, the trust-store
filesystem access happens first — construction fails with the propagated
trust-store error when loading fails, and only when loading succeeds does
it fail with the missing-credential error (still before any network
access, the trace holding only the trust-store access and its
warnings). -/
theorem missingPassword_after_trustStore (s : Settings) (fs : TrustStoreFs)
    (pOk cOk : Bool) (hu : s.User ≠ []) (hp : s.Password = [])
    (hv : validateBrokers (splitChar ',' s.BrokerUrls) = none) :
    (s.TrustStore = [] →
      getKafkaConnection s fs pOk cOk = (.error (.missingPassword s.User), [])) ∧
    (s.TrustStore ≠ [] → ∀ e, (getCerts s.TrustStore fs).result = .error e →
      getKafkaConnection s fs pOk cOk = (.error (.trustStore e),
        .trustStoreAccess :: (getCerts s.TrustStore fs).warnings.map Event.warn)) ∧
    (s.TrustStore ≠ [] → ∀ pool, (getCerts s.TrustStore fs).result = .ok pool →
      getKafkaConnection s fs pOk cOk = (.error (.missingPassword s.User),
        .trustStoreAccess :: (getCerts s.TrustStore fs).warnings.map Event.warn)) := by
  rw [getKafkaConnection_validated s fs pOk cOk hv]
  refine ⟨?_, ?_, ?_⟩
  · intro hts
    rw [buildFromConfig_trust_ok s fs pOk cOk _ _ _
      (trustStep_skipped s fs producerTunedConfig hts)]
    rw [saslStep_missing s producerTunedConfig hu hp]
  · intro hts e he
    exact buildFromConfig_trust_err s fs pOk cOk _ _ _
      (trustStep_err s fs producerTunedConfig e hts he)
  · intro hts pool hpool
    rw [buildFromConfig_trust_ok s fs pOk cOk _ _ _
      (trustStep_loaded s fs producerTunedConfig pool hts hpool)]
    rw [saslStep_missing s _ hu hp]

/-- Claim C2, witness for the amended theorem: with user `"u"`, empty
password and no trust store, construction fails with the
missing-credential error and an empty effect trace; with a trust store
`"t"` that is missing from the filesystem, it instead fails with the
trust-store not-found error after the trust-store access. -/
theorem missingPassword_after_trustStore_witness :
    getKafkaConnection ⟨['h', ':', '1'], ['u'], [], []⟩ .missing true true =
      (.error (.missingPassword ['u']), []) ∧
    getKafkaConnection ⟨['h', ':', '1'], ['u'], [], ['t']⟩ .missing true true =
      (.error (.trustStore (.notFound ['t'])), [.trustStoreAccess]) :=
  ⟨(missingPassword_after_trustStore ⟨['h', ':', '1'], ['u'], [], []⟩ .missing
      true true (by decide) rfl rfl).1 rfl,
    (missingPassword_after_trustStore ⟨['h', ':', '1'], ['u'], [], ['t']⟩ .missing
      true true (by decide) rfl rfl).2.1 (by decide) (.notFound ['t']) rfl⟩

/-- Claim C2, counterexample to the claim as stated: settings with user
`"u"`, empty password, valid broker `"h:1"` and trust store `"t"` (absent
from the filesystem) make construction fail with the trust-store
not-found error — not the missing-credential error — and the trust-store
access happens despite the claim requiring the credential failure to come
first. -/
theorem missingPassword_not_before_trustStore :
    (getKafkaConnection ⟨['h', ':', '1'], ['u'], [], ['t']⟩ .missing true true).1 =
      .error (.trustStore (.notFound ['t'])) ∧
    (getKafkaConnection ⟨['h', ':', '1'], ['u'], [], ['t']⟩ .missing true true).1 ≠
      .error (.missingPassword ['u']) ∧
    Event.trustStoreAccess ∈
      (getKafkaConnection ⟨['h', ':', '1'], ['u'], [], ['t']⟩ .missing true true).2 :=
  ⟨rfl, by decide, by decide⟩

/-- When the trust-store step succeeded with configuration `cfg1`, any
successful construction returns a handle whose TLS section is exactly
`cfg1`'s (the SASL step and the constructors never touch it). -/
theorem buildFromConfig_ok_TLS (s : Settings) (fs : TrustStoreFs)
    (pOk cOk : Bool) (brokers : List Str) (cfg1 : SaramaConfig)
    (tr : List Event) (conn : KafkaConnect)
    (htrust : trustStep s fs producerTunedConfig = (.ok cfg1, tr))
    (hok : (buildFromConfig s fs pOk cOk brokers).1 = .ok conn) :
    conn.kafkaConfig.Net.TLS = cfg1.Net.TLS := by
  rw [buildFromConfig_trust_ok s fs pOk cOk brokers cfg1 tr htrust] at hok
  rcases hsasl : saslStep s cfg1 with e | cfg2
  · rw [hsasl] at hok
    have hok2 : (Except.error e : Except ConnErr KafkaConnect) = .ok conn := hok
    exact absurd hok2 (by simp)
  · rw [hsasl] at hok
    have hok2 : (buildClients brokers cfg2 tr pOk cOk).1 = .ok conn := hok
    obtain ⟨hcfg, -⟩ := buildClients_ok_config brokers cfg2 tr pOk cOk conn hok2
    rw [hcfg, saslStep_preserves_TLS s cfg1 cfg2 hsasl]

/-- Claim C5: whenever the trust store is set, loads to a pool, and
construction succeeds, the returned handle's configuration has transport
encryption enabled (`Net.TLS.Enable`) and carries exactly the loaded pool
as its trusted roots, with `InsecureSkipVerify` set (the source's
structural install-the-pool-but-skip-strict-verification choice). -/
theorem tls_config_on_success (s : Settings) (fs : TrustStoreFs) (pOk cOk : Bool)
    (conn : KafkaConnect) (pool : List Str)
    (hts : s.TrustStore ≠ [])
    (hcerts : (getCerts s.TrustStore fs).result = .ok pool)
    (hok : (getKafkaConnection s fs pOk cOk).1 = .ok conn) :
    conn.kafkaConfig.Net.TLS.Enable = true ∧
    conn.kafkaConfig.Net.TLS.Config = some ⟨pool, true⟩ := by
  rcases hval : validateBrokers (splitChar ',' s.BrokerUrls) with _ | be
  · rw [getKafkaConnection_validated s fs pOk cOk hval] at hok
    have htls := buildFromConfig_ok_TLS s fs pOk cOk _ _ _ conn
      (trustStep_loaded s fs producerTunedConfig pool hts hcerts) hok
    rw [htls]
    exact ⟨rfl, rfl⟩
  · simp only [getKafkaConnection] at hok
    have hlen : ¬((splitChar ',' s.BrokerUrls).length < 1) := by
      have := one_le_splitChar_length ',' s.BrokerUrls
      omega
    rw [if_neg hlen, hval] at hok
    simp at hok

/-- The handle the C5 witness run produces. -/
def sampleTLSConn : KafkaConnect :=
  { kafkaConfig :=
      { Producer := { RequiredAcks := -1, Retry := ⟨5⟩, Return := ⟨true, true⟩ }
        Net := { TLS := { Enable := true, Config := some ⟨[['s']], true⟩ }
                 SASL := { Enable := false, User := [], Password := [] } } }
    brokers := [['h', ':', '1']] }

/-- Claim C5, witness: a concrete successful construction with trust
store `"t"` holding one certificate file yields a handle whose
configuration has TLS enabled and that pool installed. -/
theorem tls_config_on_success_witness :
    sampleTLSConn.kafkaConfig.Net.TLS.Enable = true ∧
    sampleTLSConn.kafkaConfig.Net.TLS.Config = some ⟨[['s']], true⟩ :=
  tls_config_on_success ⟨['h', ':', '1'], [], [], ['t']⟩
    (.dir (some [⟨['c'], .pem [['s']]⟩])) true true sampleTLSConn [['s']]
    (by decide) rfl rfl

/-- Claim C6, amended.  An empty broker-list string makes construction
fail before any filesystem or network access (the effect trace is empty),
but through per-address validation — the error is the address-format
error naming the empty segment, not the require-at-least-one-broker
error, because splitting the empty string on commas yields the one-element
list holding the empty string. -/
theorem empty_brokerUrls_rejected_by_validation (s : Settings)
    (fs : TrustStoreFs) (pOk cOk : Bool) (h : s.BrokerUrls = []) :
    getKafkaConnection s fs pOk cOk =
      (.error (.invalidBroker [] .badShape), []) := by
  obtain ⟨bu, u, p, t⟩ := s
  cases h
  rfl

/-- Claim C6, witness for the amended theorem: concrete settings with an
empty broker list (and a user, password and trust store set) fail with
the address-format error on the empty segment and an empty effect
trace. -/
theorem empty_brokerUrls_rejected_by_validation_witness :
    getKafkaConnection ⟨[], ['u'], ['p'], ['t']⟩ .regularFile true true =
      (.error (.invalidBroker [] .badShape), []) :=
  empty_brokerUrls_rejected_by_validation ⟨[], ['u'], ['p'], ['t']⟩
    .regularFile true true rfl

/-- Claim C6, counterexample to the claim as stated: on the empty broker
string the comma-split list is `[""]` — never empty — so the rejection is
not the empty-list rejection: the result is the per-address format error,
not the require-at-least-one-broker error. -/
theorem empty_brokerUrls_split_not_empty :
    splitChar ',' ([] : Str) = [[]] ∧
    (getKafkaConnection ⟨[], [], [], []⟩ .missing true true).1 =
      .error (.invalidBroker [] .badShape) ∧
    (getKafkaConnection ⟨[], [], [], []⟩ .missing true true).1 ≠
      .error (.emptyBrokerList []) :=
  ⟨rfl, rfl, by decide⟩

/-- Claim C10: splitting any broker-list string on commas yields at least
one element, so the require-at-least-one-broker branch can never fire;
and the empty broker-list string in particular fails inside per-address
validation with the address-format error naming the empty segment, with
an empty effect trace. -/
theorem split_always_nonempty_validation_catches_empty :
    (∀ bs : Str, 1 ≤ (splitChar ',' bs).length) ∧
    (∀ (s : Settings) (fs : TrustStoreFs) (pOk cOk : Bool), s.BrokerUrls = [] →
      (getKafkaConnection s fs pOk cOk).1 = .error (.invalidBroker [] .badShape) ∧
      (getKafkaConnection s fs pOk cOk).2 = []) := by
  refine ⟨one_le_splitChar_length ',', ?_⟩
  intro s fs pOk cOk h
  obtain ⟨bu, u, p, t⟩ := s
  cases h
  exact ⟨rfl, rfl⟩

/-- Claim C10, witness: at the empty broker string with a trust store
set, the result is the address-format error on the empty segment and no
effects happen. -/
theorem split_always_nonempty_validation_catches_empty_witness :
    (getKafkaConnection ⟨[], [], [], ['t']⟩ .missing true true).1 =
      .error (.invalidBroker [] .badShape) ∧
    (getKafkaConnection ⟨[], [], [], ['t']⟩ .missing true true).2 = [] :=
  split_always_nonempty_validation_catches_empty.2 ⟨[], [], [], ['t']⟩
    .missing true true rfl

end KafkaConnection
